import Mathlib

/-!
# Verification of `cancel-source`

A shallow embedding of `src/cancel-source.js`, a one-shot cooperative
cancellation primitive, together with proofs of its specified properties.

The source module keeps, per source/token pair, a record
`data = { reason, listeners }`; `cancel` is wrapped in `once` (which clears
its stored callback before invoking it), commits
`reason || new Error('Operation Canceled')` and then runs
`data.listeners.forEach(invokeListener(data.reason))`; `invokeListener`
calls a listener inside `try/catch` and re-throws a caught error inside
`setTimeout`, i.e. on a later turn of the event queue.

Modelling decisions:
* JavaScript values that can appear as reasons are modelled by `JSVal`
  with its truthiness predicate; `null` is the initial (uncanceled) reason.
* Listener functions are modelled by `Listener`: a plain callback that
  records its invocation and optionally throws, a callback that records and
  then re-entrantly calls some pair's `cancel`, the `once`-wrapped `cancel`
  function of a pair itself (what the factory subscribes to parent tokens),
  and a non-callable value. Function identity (JavaScript `!==`) is equality
  of `Listener` values.
* The whole module state is a `World`: the list of pair states, the queue of
  errors re-thrown via `setTimeout` (in scheduling order), and a log of
  listener invocations `(listener id, reason)` in call order.
* `once`'s cleared-callback state is the `onceFired` flag, set before the
  wrapped body runs, exactly as `once` assigns `callback = null` before
  `fn.apply`.
* Cancellation of a pair can recursively cancel other pairs (a parent's
  listener list can contain a child's `cancel`).  The recursion is bounded
  by a fuel argument that decreases once per productive (guard-passing)
  `cancel` entry.  Along any call chain the productively canceled pairs are
  pairwise distinct (each entry fires its pair's guard before recursing), so
  `w.pairs.length` fuel always suffices and the fuel-exhaustion branch is
  unreachable from the wrappers used below.
-/

/-- JavaScript values as they matter here: only identity and truthiness. -/
inductive JSVal where
  | null
  | undef
  | err (msg : String)
  | num (n : Int)
  | str (s : String)
  | bool (b : Bool)
deriving DecidableEq

/-- JavaScript truthiness of a `JSVal` (`Boolean(v)`). -/
def truthy : JSVal → Bool
  | .null => false
  | .undef => false
  | .err _ => true
  | .num n => decide (n ≠ 0)
  | .str s => decide (s ≠ "")
  | .bool b => b

/-- `new Error('Operation Canceled')`, the default reason in `cancel`. -/
def defaultReason : JSVal := .err "Operation Canceled"

/-- The `TypeError` produced by calling a non-callable value. -/
def typeError : JSVal := .err "TypeError: listener is not a function"

/-- A value passed to `subscribe` as a listener.  `cb id thrown` is a plain
callback (it records `(id, reason)` in the invocation log and, when
`thrown = some e`, throws `e`); `cbCancel id target arg` is a callback that
records its invocation and then calls pair `target`'s `cancel` with `arg`;
`childCancel target` is pair `target`'s own `once`-wrapped `cancel`
function, which the factory subscribes to each parent token; `nonCallable`
is a non-function value. -/
inductive Listener where
  | cb (id : Nat) (thrown : Option JSVal)
  | cbCancel (id : Nat) (target : Nat) (arg : JSVal)
  | childCancel (target : Nat)
  | nonCallable (id : Nat)
deriving DecidableEq

/-- The `data` record of one source/token pair (`{ reason, listeners }`),
plus the state of the `once` guard around its `cancel` (`onceFired = true`
once `once` has cleared its stored callback). -/
structure CancelData where
  reason : JSVal
  listeners : List Listener
  onceFired : Bool
deriving DecidableEq

/-- State of the whole module: all pair states, the queue of errors
re-thrown asynchronously via `setTimeout` (the deferred channel), and the
log of listener invocations `(listener id, reason received)`. -/
structure World where
  pairs : List CancelData
  deferredErrors : List JSVal
  log : List (Nat × JSVal)
deriving DecidableEq

/-- Reading a pair that does not exist; its guard counts as fired so that a
stray out-of-range index can never do anything. -/
def dummyPair : CancelData := { reason := .null, listeners := [], onceFired := true }

/-- The state of pair `p`. -/
def getPair (w : World) (p : Nat) : CancelData := w.pairs.getD p dummyPair

/-- Replace the state of pair `p`. -/
def setPair (w : World) (p : Nat) (d : CancelData) : World :=
  { w with pairs := w.pairs.set p d }

/-- `reason || new Error('Operation Canceled')`: the committed reason. -/
def commitReason (r : JSVal) : JSVal := if truthy r then r else defaultReason

/-- `invokeListener(reason)(listener)` from the source, parameterised by the
interpretation `canc` of calling a pair's `cancel`.  A plain callback
records its invocation; if it throws, the error is caught and re-thrown via
`setTimeout`, i.e. appended to `deferredErrors`.  Calling a non-callable
value throws a `TypeError`, which the same `try/catch` defers.  A callback
that calls some pair's `cancel` does so via `canc`. -/
def invokeListener (canc : Nat → JSVal → World → World) (r : JSVal)
    (l : Listener) (w : World) : World :=
  match l with
  | .cb id none => { w with log := w.log ++ [(id, r)] }
  | .cb id (some e) =>
      { w with log := w.log ++ [(id, r)], deferredErrors := w.deferredErrors ++ [e] }
  | .cbCancel id target arg => canc target arg { w with log := w.log ++ [(id, r)] }
  | .childCancel target => canc target r w
  | .nonCallable _ => { w with deferredErrors := w.deferredErrors ++ [typeError] }

/-- `listeners.forEach(invokeListener(reason))`: invoke the listeners of the
snapshot taken by `forEach`, in order.  (`unsubscribe` reassigns
`data.listeners` to a fresh filtered array, so the array being iterated is
never mutated mid-iteration; the snapshot semantics is exact.) -/
def forEachListener (canc : Nat → JSVal → World → World) :
    List Listener → JSVal → World → World
  | [], _, w => w
  | l :: ls, r, w => forEachListener canc ls r (invokeListener canc r l w)

/-- Pair `p`'s `once`-wrapped `cancel`, fuel-indexed.  The `once` guard
(`typeof callback === 'function'`) is checked first; when it passes, the
guard is cleared (`callback = null`) before the body runs, then the body
commits `reason || new Error('Operation Canceled')` and notifies the
listeners present at commit time.  `fuel` bounds the depth of nested
productive cancellations (see the header comment); the fuel-0 fallback is
unreachable from `cancel` below. -/
def cancelFn : Nat → Nat → JSVal → World → World
  | 0, _, _, w => w
  | fuel + 1, p, r, w =>
      let ps := getPair w p
      if ps.onceFired then w
      else
        let r1 := commitReason r
        let w1 := setPair w p { ps with reason := r1, onceFired := true }
        forEachListener (cancelFn fuel) ps.listeners r1 w1

/-- Calling pair `p`'s `cancel` with reason `r`: `cancelFn` with always
sufficient fuel (nested productive cancellations fire pairwise distinct
pairs, so their depth never exceeds the number of pairs). -/
def cancel (p : Nat) (r : JSVal) (w : World) : World :=
  cancelFn w.pairs.length p r w

/-- The result of `subscribe`: either the no-op subscription returned when
the token is already canceled, or a live subscription closing over the
pair and the exact listener value it will remove. -/
inductive Subscription where
  | empty
  | active (p : Nat) (l : Listener)
deriving DecidableEq

/-- `subscription.unsubscribe()`: the live version reassigns
`data.listeners = data.listeners.filter((el) => el !== listener)`;
the version returned after cancellation does nothing. -/
def unsubscribe (s : Subscription) (w : World) : World :=
  match s with
  | .empty => w
  | .active p l =>
      let ps := getPair w p
      setPair w p { ps with listeners := ps.listeners.filter (fun el => decide (el ≠ l)) }

/-- `token.subscribe(listener)`: if the pair is already canceled, invoke the
listener immediately with the committed reason and return the no-op
subscription; otherwise push the listener and return a live subscription. -/
def subscribe (p : Nat) (l : Listener) (w : World) : World × Subscription :=
  let ps := getPair w p
  if truthy ps.reason then
    (invokeListener (cancelFn w.pairs.length) ps.reason l w, .empty)
  else
    (setPair w p { ps with listeners := ps.listeners ++ [l] }, .active p l)

/-- `token.isCanceled()`: `Boolean(data.reason)`. -/
def isCanceled (w : World) (p : Nat) : Bool := truthy (getPair w p).reason

/-- `token.throwIfCanceled()`: `some r` models throwing `r`, `none` a normal
return. -/
def throwIfCanceled (w : World) (p : Nat) : Option JSVal :=
  if truthy (getPair w p).reason then some (getPair w p).reason else none

/-- `createCancelSource(...parentTokens)`: allocate a fresh pair (reason
`null`, no listeners, guard armed), then subscribe its `cancel` to each
parent token in order.  Returns the updated world and the new pair's index
(its token and its `cancel` are both identified by that index). -/
def createCancelSource (parentTokens : List Nat) (w : World) : World × Nat :=
  let p := w.pairs.length
  let w1 := { w with pairs := w.pairs ++ [{ reason := .null, listeners := [], onceFired := false }] }
  let w2 := parentTokens.foldl (fun acc t => (subscribe t (.childCancel p) acc).1) w1
  (w2, p)

/-- The world at module load time, before `emptyToken`'s pair is created. -/
def initialWorld : World := { pairs := [], deferredErrors := [], log := [] }

/-- The world after the module-level `const emptyToken = createCancelSource().token`. -/
def moduleWorld : World := (createCancelSource [] initialWorld).1

/-- `emptyToken`: the token of the pair created once at module load, whose
`cancel` is never exported. -/
def emptyToken : Nat := (createCancelSource [] initialWorld).2

/-! ## Basic state lemmas -/

theorem getPair_setPair_self (w : World) (p : Nat) (d : CancelData)
    (h : p < w.pairs.length) : getPair (setPair w p d) p = d := by
  simp [getPair, setPair, List.getD_eq_getElem?_getD, List.getElem?_set_self h]

theorem getPair_setPair_ne (w : World) {p q : Nat} (d : CancelData) (h : p ≠ q) :
    getPair (setPair w p d) q = getPair w q := by
  simp [getPair, setPair, List.getD_eq_getElem?_getD, List.getElem?_set_ne h]

theorem pairsLength_setPair (w : World) (p : Nat) (d : CancelData) :
    (setPair w p d).pairs.length = w.pairs.length := by
  simp [setPair]

/-- A pair whose `once` guard is still armed is a real pair (the
out-of-range placeholder counts as fired). -/
theorem lt_of_not_fired {w : World} {p : Nat} (h : (getPair w p).onceFired = false) :
    p < w.pairs.length := by
  by_contra hc
  push_neg at hc
  rw [getPair, List.getD_eq_default _ _ hc] at h
  simp [dummyPair] at h

theorem set_getD_self {α : Type} : ∀ (l : List α) (p : Nat) (d : α),
    l.set p (l.getD p d) = l
  | [], _, _ => rfl
  | _ :: _, 0, _ => rfl
  | x :: xs, p + 1, d => congrArg (x :: ·) (set_getD_self xs p d)

theorem setPair_getPair_self (w : World) (p : Nat) :
    setPair w p (getPair w p) = w := by
  show { w with pairs := w.pairs.set p (w.pairs.getD p dummyPair) } = w
  rw [set_getD_self]

/-! ## The committed reason -/

theorem truthy_commitReason (r : JSVal) : truthy (commitReason r) = true := by
  by_cases h : truthy r = true
  · rw [commitReason, if_pos h]; exact h
  · rw [commitReason, if_neg h]; decide

theorem commitReason_of_truthy {r : JSVal} (h : truthy r = true) : commitReason r = r := by
  simp [commitReason, h]

theorem commitReason_of_falsy {r : JSVal} (h : truthy r = false) :
    commitReason r = defaultReason := by
  simp [commitReason, h]

theorem commitReason_idem (r : JSVal) :
    commitReason (commitReason r) = commitReason r :=
  commitReason_of_truthy (truthy_commitReason r)

/-! ## The `once` guard -/

/-- Once a pair's guard has fired, calling its `cancel` again does nothing at
all, whatever the argument and whatever the fuel. -/
theorem cancelFn_fired {w : World} {p : Nat} (h : (getPair w p).onceFired = true) :
    ∀ (fuel : Nat) (r : JSVal), cancelFn fuel p r w = w
  | 0, _ => rfl
  | _ + 1, r => by simp [cancelFn, h]

theorem cancel_fired {w : World} {p : Nat} (h : (getPair w p).onceFired = true)
    (r : JSVal) : cancel p r w = w :=
  cancelFn_fired h _ r

/-! ## Fired pairs are frozen

Once a pair's guard has fired, no amount of further notification or nested
cancellation can change that pair's state: `reason` is committed for good. -/

/-- `FrozenFired w w2` : every pair already fired in `w` has the same state
in `w2`. -/
def FrozenFired (w w2 : World) : Prop :=
  ∀ q, (getPair w q).onceFired = true → getPair w2 q = getPair w q

theorem frozenFired_rfl (w : World) : FrozenFired w w := fun _ _ => rfl

theorem frozenFired_trans (w1 w2 w3 : World) (h12 : FrozenFired w1 w2)
    (h23 : FrozenFired w2 w3) : FrozenFired w1 w3 := by
  intro q hq
  rw [h23 q (by rw [h12 q hq]; exact hq), h12 q hq]

theorem invokeListener_frozen {canc : Nat → JSVal → World → World}
    (hc : ∀ p r w, FrozenFired w (canc p r w)) (r : JSVal) (l : Listener) (w : World) :
    FrozenFired w (invokeListener canc r l w) := by
  cases l with
  | cb id t => cases t <;> exact fun q _ => rfl
  | cbCancel id tgt a =>
      exact frozenFired_trans w { w with log := w.log ++ [(id, r)] } _
        (fun q _ => rfl) (hc tgt a _)
  | childCancel tgt => exact hc tgt r w
  | nonCallable id => exact fun q _ => rfl

theorem forEachListener_frozen {canc : Nat → JSVal → World → World}
    (hc : ∀ p r w, FrozenFired w (canc p r w)) (ls : List Listener) (r : JSVal) :
    ∀ w, FrozenFired w (forEachListener canc ls r w) := by
  induction ls with
  | nil => exact fun w => frozenFired_rfl w
  | cons l ls ih =>
      intro w
      exact frozenFired_trans w (invokeListener canc r l w) _
        (invokeListener_frozen hc r l w) (ih (invokeListener canc r l w))

theorem cancelFn_frozen : ∀ (fuel : Nat) (p : Nat) (r : JSVal) (w : World),
    FrozenFired w (cancelFn fuel p r w) := by
  intro fuel
  induction fuel with
  | zero => exact fun p r w => frozenFired_rfl w
  | succ f ih =>
      intro p r w
      by_cases hf : (getPair w p).onceFired = true
      · rw [cancelFn_fired hf]; exact frozenFired_rfl w
      · rw [Bool.not_eq_true] at hf
        have hstep : cancelFn (f + 1) p r w =
            forEachListener (cancelFn f) (getPair w p).listeners (commitReason r)
              (setPair w p { getPair w p with reason := commitReason r, onceFired := true }) := by
          simp [cancelFn, hf]
        rw [hstep]
        refine frozenFired_trans w (setPair w p
          { getPair w p with reason := commitReason r, onceFired := true }) _ ?_ ?_
        · intro q hq
          have hne : p ≠ q := fun he => by rw [he] at hf; rw [hf] at hq; cases hq
          exact getPair_setPair_ne w _ hne
        · exact forEachListener_frozen ih _ _ _

theorem cancel_frozen (p : Nat) (r : JSVal) (w : World) :
    FrozenFired w (cancel p r w) :=
  cancelFn_frozen _ p r w

/-- Unfolding one productive `cancel` entry: the guard is cleared, the
reason committed, and the listener snapshot notified. -/
theorem cancelFn_productive {w : World} {p : Nat} (hf : (getPair w p).onceFired = false)
    (f : Nat) (r : JSVal) :
    cancelFn (f + 1) p r w =
      forEachListener (cancelFn f) (getPair w p).listeners (commitReason r)
        (setPair w p { getPair w p with reason := commitReason r, onceFired := true }) := by
  simp [cancelFn, hf]

theorem cancel_productive {w : World} {p : Nat} (hf : (getPair w p).onceFired = false)
    (r : JSVal) :
    cancel p r w =
      forEachListener (cancelFn (w.pairs.length - 1)) (getPair w p).listeners (commitReason r)
        (setPair w p { getPair w p with reason := commitReason r, onceFired := true }) := by
  have hp : p < w.pairs.length := lt_of_not_fired hf
  have hlen : w.pairs.length = (w.pairs.length - 1) + 1 := by omega
  conv_lhs => rw [cancel, hlen]
  rw [cancelFn_productive hf]

/-! ## Plain listeners and the shape of one notification batch -/

/-- A listener that never calls any `cancel`: a plain callback (possibly
throwing) or a non-callable value. -/
def plainL : Listener → Bool
  | .cb _ _ => true
  | .nonCallable _ => true
  | _ => false

/-- The invocation-log entries one notification of `ls` with reason `r`
appends: one entry per callback, in order. -/
def notes : List Listener → JSVal → List (Nat × JSVal)
  | [], _ => []
  | .cb id _ :: ls, r => (id, r) :: notes ls r
  | .cbCancel id _ _ :: ls, r => (id, r) :: notes ls r
  | .childCancel _ :: ls, r => notes ls r
  | .nonCallable _ :: ls, r => notes ls r

/-- The errors one notification of a plain `ls` defers (re-throws via
`setTimeout`): each thrown error, plus a `TypeError` per non-callable. -/
def defers : List Listener → List JSVal
  | [] => []
  | .cb _ none :: ls => defers ls
  | .cb _ (some e) :: ls => e :: defers ls
  | .cbCancel _ _ _ :: ls => defers ls
  | .childCancel _ :: ls => defers ls
  | .nonCallable _ :: ls => typeError :: defers ls

theorem notes_append : ∀ (xs ys : List Listener) (r : JSVal),
    notes (xs ++ ys) r = notes xs r ++ notes ys r := by
  intro xs ys r
  induction xs with
  | nil => simp [notes]
  | cons l xs ih => cases l with
    | cb id t => simp [notes, ih]
    | cbCancel id tgt a => simp [notes, ih]
    | childCancel tgt => simp [notes, ih]
    | nonCallable id => simp [notes, ih]

theorem defers_append : ∀ (xs ys : List Listener),
    defers (xs ++ ys) = defers xs ++ defers ys := by
  intro xs ys
  induction xs with
  | nil => simp [defers]
  | cons l xs ih => cases l with
    | cb id t => cases t <;> simp [defers, ih]
    | cbCancel id tgt a => simp [defers, ih]
    | childCancel tgt => simp [defers, ih]
    | nonCallable id => simp [defers, ih]

theorem forEachListener_append (canc : Nat → JSVal → World → World) :
    ∀ (xs ys : List Listener) (r : JSVal) (w : World),
    forEachListener canc (xs ++ ys) r w =
      forEachListener canc ys r (forEachListener canc xs r w) := by
  intro xs
  induction xs with
  | nil => intro ys r w; rfl
  | cons l xs ih => intro ys r w; simp [forEachListener, ih]

/-- Closed form of one notification batch over plain listeners: the pairs
are untouched, the log gains one entry per callback in order, and the
deferred channel gains each deferred error in order — whatever
interpretation of `cancel` is plugged in. -/
theorem forEach_plain (canc : Nat → JSVal → World → World) (r : JSVal) :
    ∀ (ls : List Listener), (∀ l ∈ ls, plainL l = true) → ∀ (w : World),
    forEachListener canc ls r w =
      { w with log := w.log ++ notes ls r,
               deferredErrors := w.deferredErrors ++ defers ls } := by
  intro ls
  induction ls with
  | nil => intro _ w; simp [forEachListener, notes, defers]
  | cons l ls ih =>
      intro h w
      have hl : plainL l = true := h l (by simp)
      have hls : ∀ x ∈ ls, plainL x = true := fun x hx => h x (by simp [hx])
      cases l with
      | cb id t =>
          cases t with
          | none => simp [forEachListener, invokeListener, ih hls, notes, defers]
          | some e => simp [forEachListener, invokeListener, ih hls, notes, defers]
      | nonCallable id => simp [forEachListener, invokeListener, ih hls, notes, defers]
      | cbCancel id tgt a => simp [plainL] at hl
      | childCancel tgt => simp [plainL] at hl

/-! ## C1 -/

/-- C1: after the first `cancel(r)` on a pair, `isCanceled()` is true and
`throwIfCanceled()` throws exactly the committed reason — `r` itself when
`r` is truthy, the default non-null `Operation Canceled` error when the
argument is absent (`undefined`) or otherwise falsy — and any later
`cancel(r2)`, whatever `r2`, changes nothing at all, so the committed
reason stays unchanged. -/
theorem c1_cancel_commits_reason_once (w : World) (p : Nat) (r r2 : JSVal)
    (hf : (getPair w p).onceFired = false) :
    isCanceled (cancel p r w) p = true ∧
    throwIfCanceled (cancel p r w) p = some (commitReason r) ∧
    (truthy r = true → commitReason r = r) ∧
    (truthy r = false → commitReason r = defaultReason ∧ truthy defaultReason = true) ∧
    cancel p r2 (cancel p r w) = cancel p r w := by
  have hp : p < w.pairs.length := lt_of_not_fired hf
  have h1 : getPair (setPair w p { getPair w p with reason := commitReason r, onceFired := true }) p
      = { getPair w p with reason := commitReason r, onceFired := true } :=
    getPair_setPair_self _ _ _ hp
  have hgp : getPair (cancel p r w) p =
      { getPair w p with reason := commitReason r, onceFired := true } := by
    rw [cancel_productive hf]
    rw [forEachListener_frozen (fun p1 r1 w1 => cancelFn_frozen _ p1 r1 w1) _ _ _ p
      (by rw [h1]), h1]
  refine ⟨?_, ?_, fun h => commitReason_of_truthy h,
    fun h => ⟨commitReason_of_falsy h, by decide⟩, ?_⟩
  · rw [isCanceled, hgp]; exact truthy_commitReason r
  · rw [throwIfCanceled, hgp]; simp [truthy_commitReason r]
  · exact cancel_fired (by rw [hgp]) r2

/-- Witness for C1: a fresh pair, canceled with a truthy reason, then
canceled again with a different one. -/
theorem c1_witness :
    (getPair (createCancelSource [] moduleWorld).1 1).onceFired = false ∧
    throwIfCanceled (cancel 1 (JSVal.err "stop") (createCancelSource [] moduleWorld).1) 1
      = some (JSVal.err "stop") ∧
    cancel 1 (JSVal.num 3) (cancel 1 (JSVal.err "stop") (createCancelSource [] moduleWorld).1)
      = cancel 1 (JSVal.err "stop") (createCancelSource [] moduleWorld).1 := by
  have h := c1_cancel_commits_reason_once (createCancelSource [] moduleWorld).1 1
    (JSVal.err "stop") (JSVal.num 3) (by decide)
  exact ⟨by decide, h.2.1, h.2.2.2.2⟩

/-- A full `cancel` of a pair whose listeners are all plain, in closed form:
the pair is committed and fired, the log gains one entry per callback in
order with the committed reason, the deferred channel gains the thrown
errors. -/
theorem cancel_plain {w : World} {p : Nat} (hf : (getPair w p).onceFired = false)
    (hpl : ∀ l ∈ (getPair w p).listeners, plainL l = true) (r : JSVal) :
    cancel p r w =
      { setPair w p { getPair w p with reason := commitReason r, onceFired := true } with
        log := w.log ++ notes (getPair w p).listeners (commitReason r),
        deferredErrors := w.deferredErrors ++ defers (getPair w p).listeners } := by
  rw [cancel_productive hf, forEach_plain _ _ _ hpl]
  rfl

theorem notes_map_cb (ids : List Nat) (r : JSVal) :
    notes (ids.map (fun i => Listener.cb i none)) r = ids.map (fun i => (i, r)) := by
  induction ids with
  | nil => rfl
  | cons i ids ih => simp [notes, ih]

theorem defers_map_cb (ids : List Nat) :
    defers (ids.map (fun i => Listener.cb i none)) = [] := by
  induction ids with
  | nil => rfl
  | cons i ids ih => simp [defers, ih]

/-! ## C2 -/

/-- C2: with N listeners subscribed (and not unsubscribed) before
cancellation, the first `cancel(r)` invokes each of them exactly once, in
subscription order, with the committed reason — the log gains exactly one
entry per listener, in list order — and any second or later `cancel` call
leaves the world untouched, so none of them is ever invoked again. -/
theorem c2_notify_all_in_order_once (w : World) (p : Nat) (r r2 : JSVal) (ids : List Nat)
    (hl : (getPair w p).listeners = ids.map (fun i => Listener.cb i none))
    (hf : (getPair w p).onceFired = false) :
    (cancel p r w).log = w.log ++ ids.map (fun i => (i, commitReason r)) ∧
    cancel p r2 (cancel p r w) = cancel p r w := by
  have hp := lt_of_not_fired hf
  have hpl : ∀ l ∈ (getPair w p).listeners, plainL l = true := by
    rw [hl]; intro l hlm
    obtain ⟨i, _, rfl⟩ := List.mem_map.1 hlm
    rfl
  have hc := cancel_plain hf hpl r
  constructor
  · conv_lhs => rw [hc]
    show w.log ++ notes (getPair w p).listeners (commitReason r) = _
    rw [hl, notes_map_cb]
  · apply cancel_fired
    rw [hc]
    show (getPair (setPair w p
      { getPair w p with reason := commitReason r, onceFired := true }) p).onceFired = true
    rw [getPair_setPair_self _ _ _ hp]

/-- A world for the C2 witness: a fresh pair with two listeners. -/
def c2World : World :=
  (subscribe 1 (Listener.cb 2 none)
    ((subscribe 1 (Listener.cb 1 none) ((createCancelSource [] moduleWorld).1)).1)).1

/-- Witness for C2: both listeners notified in order with the default
reason; the second `cancel` is a complete no-op. -/
theorem c2_witness :
    (getPair c2World 1).listeners = [1, 2].map (fun i => Listener.cb i none) ∧
    (getPair c2World 1).onceFired = false ∧
    ((cancel 1 JSVal.undef c2World).log
        = c2World.log ++ [1, 2].map (fun i => (i, commitReason JSVal.undef)) ∧
      cancel 1 (JSVal.err "again") (cancel 1 JSVal.undef c2World) = cancel 1 JSVal.undef c2World) :=
  ⟨by decide, by decide,
    c2_notify_all_in_order_once c2World 1 JSVal.undef (JSVal.err "again") [1, 2]
      (by decide) (by decide)⟩

/-! ## C3 -/

/-- C3: when the pair is already canceled, `subscribe(listener)` invokes the
listener exactly once, synchronously within the call, with the committed
reason (deferring, not raising, anything it throws), never touches the
stored listeners, and returns the subscription whose `unsubscribe` is a
callable no-op. -/
theorem c3_subscribe_after_cancel (w : World) (p : Nat) (id : Nat) (t : Option JSVal)
    (hc : truthy (getPair w p).reason = true) :
    subscribe p (Listener.cb id t) w =
      ({ w with log := w.log ++ [(id, (getPair w p).reason)],
                deferredErrors := w.deferredErrors ++ t.elim [] (fun e => [e]) },
        Subscription.empty) ∧
    (getPair ((subscribe p (Listener.cb id t) w).1) p).listeners = (getPair w p).listeners ∧
    (∀ w2, unsubscribe Subscription.empty w2 = w2) := by
  have hmain : subscribe p (Listener.cb id t) w =
      ({ w with log := w.log ++ [(id, (getPair w p).reason)],
                deferredErrors := w.deferredErrors ++ t.elim [] (fun e => [e]) },
        Subscription.empty) := by
    cases t with
    | none => simp [subscribe, hc, invokeListener, Option.elim]
    | some e => simp [subscribe, hc, invokeListener, Option.elim]
  refine ⟨hmain, ?_, fun w2 => rfl⟩
  rw [hmain]
  rfl

/-- A world for the C3 witness: a pair canceled with reason `Timeout`. -/
def c3World : World := cancel 1 (JSVal.err "Timeout") (createCancelSource [] moduleWorld).1

/-- Witness for C3: subscribing after cancellation immediately logs the
invocation with the committed reason and returns the no-op subscription. -/
theorem c3_witness :
    truthy (getPair c3World 1).reason = true ∧
    ((subscribe 1 (Listener.cb 5 none) c3World).1).log = c3World.log ++ [(5, JSVal.err "Timeout")] ∧
    (subscribe 1 (Listener.cb 5 none) c3World).2 = Subscription.empty ∧
    unsubscribe Subscription.empty c3World = c3World := by
  have h := c3_subscribe_after_cancel c3World 1 5 none (by decide)
  refine ⟨by decide, ?_, ?_, h.2.2 c3World⟩
  · rw [h.1]; decide
  · rw [h.1]

/-! ## Unsubscription -/

theorem setPair_oor {w : World} {p : Nat} (h : w.pairs.length ≤ p) (d : CancelData) :
    setPair w p d = w := by
  show { w with pairs := w.pairs.set p d } = w
  rw [List.set_eq_of_length_le h]

/-- The removal filter keeps a list not containing the listener intact. -/
theorem filter_ne_of_not_mem {l : Listener} : ∀ (ls : List Listener), l ∉ ls →
    ls.filter (fun el => decide (el ≠ l)) = ls := by
  intro ls h
  apply List.filter_eq_self.2
  intro a ha
  have hne : a ≠ l := fun he => h (he ▸ ha)
  simpa using hne

/-- Removing a listener that is not stored is a complete no-op (the filter
keeps everything). -/
theorem unsubscribe_absent (w : World) (p : Nat) (l : Listener)
    (h : l ∉ (getPair w p).listeners) :
    unsubscribe (Subscription.active p l) w = w := by
  show setPair w p
    { getPair w p with
      listeners := (getPair w p).listeners.filter (fun el => decide (el ≠ l)) } = w
  rw [filter_ne_of_not_mem _ h]
  exact setPair_getPair_self w p

/-- Calling `unsubscribe` a second time is a no-op: the listener is already
gone. -/
theorem unsubscribe_twice (w : World) (s : Subscription) :
    unsubscribe s (unsubscribe s w) = unsubscribe s w := by
  cases s with
  | empty => rfl
  | active p l =>
      apply unsubscribe_absent
      have hred : unsubscribe (Subscription.active p l) w = setPair w p
          { getPair w p with
            listeners := (getPair w p).listeners.filter (fun el => decide (el ≠ l)) } := rfl
      by_cases hp : p < w.pairs.length
      · rw [hred, getPair_setPair_self _ _ _ hp]
        intro hmem
        have := (List.mem_filter.1 hmem).2
        simp at this
      · rw [hred, setPair_oor (by omega)]
        rw [getPair, List.getD_eq_default _ _ (by omega)]
        simp [dummyPair]

/-- The numeric identity a callback listener carries, if any (distinct spy
functions are modelled with distinct ids). -/
def listenerIdIs (i : Nat) : Listener → Bool
  | .cb j _ => decide (j = i)
  | .cbCancel j _ _ => decide (j = i)
  | _ => false

/-- A batch containing no callback with id `i` logs no entry for `i`. -/
theorem notes_id_free {i : Nat} : ∀ (ls : List Listener) (r : JSVal),
    (∀ x ∈ ls, listenerIdIs i x = false) → ∀ q ∈ notes ls r, q.1 ≠ i := by
  intro ls
  induction ls with
  | nil => intro r _ q hq; simp [notes] at hq
  | cons l ls ih =>
      intro r h q hq
      have hl := h l (by simp)
      have hls : ∀ x ∈ ls, listenerIdIs i x = false := fun x hx => h x (by simp [hx])
      cases l with
      | cb id t =>
          rw [notes] at hq
          rcases List.mem_cons.1 hq with he | hq2
          · subst he; simpa [listenerIdIs] using hl
          · exact ih r hls q hq2
      | cbCancel id tgt a =>
          rw [notes] at hq
          rcases List.mem_cons.1 hq with he | hq2
          · subst he; simpa [listenerIdIs] using hl
          · exact ih r hls q hq2
      | childCancel tgt => rw [notes] at hq; exact ih r hls q hq
      | nonCallable id => rw [notes] at hq; exact ih r hls q hq


/-! ## C4 -/

/-- C4: a listener subscribed and then unsubscribed strictly before
cancellation is really removed (the filter keeps exactly the others, in
order), the cancellation then delivers to every other listener of the batch
as if the removed one had never been there and never invokes the removed
listener; removing an absent listener and double-unsubscribing are complete
no-ops. -/
theorem c4_unsubscribe_excludes_listener (w : World) (p : Nat) (r : JSVal) (i0 : Nat)
    (ls1 ls2 : List Listener)
    (hl : (getPair w p).listeners = ls1 ++ [Listener.cb i0 none] ++ ls2)
    (hf : (getPair w p).onceFired = false)
    (hp1 : ∀ x ∈ ls1, plainL x = true) (hp2 : ∀ x ∈ ls2, plainL x = true)
    (hn1 : Listener.cb i0 none ∉ ls1) (hn2 : Listener.cb i0 none ∉ ls2)
    (hid : ∀ x ∈ ls1 ++ ls2, listenerIdIs i0 x = false) :
    (getPair (unsubscribe (Subscription.active p (Listener.cb i0 none)) w) p).listeners
        = ls1 ++ ls2 ∧
    (cancel p r (unsubscribe (Subscription.active p (Listener.cb i0 none)) w)).log
        = w.log ++ notes (ls1 ++ ls2) (commitReason r) ∧
    (∀ q ∈ notes (ls1 ++ ls2) (commitReason r), q.1 ≠ i0) ∧
    (∀ w2 p2 l2, l2 ∉ (getPair w2 p2).listeners →
        unsubscribe (Subscription.active p2 l2) w2 = w2) ∧
    (∀ w2 s, unsubscribe s (unsubscribe s w2) = unsubscribe s w2) := by
  have hp := lt_of_not_fired hf
  have hfil : (ls1 ++ [Listener.cb i0 none] ++ ls2).filter
      (fun el => decide (el ≠ Listener.cb i0 none)) = ls1 ++ ls2 := by
    rw [List.filter_append, List.filter_append]
    rw [filter_ne_of_not_mem _ hn1, filter_ne_of_not_mem _ hn2]
    simp
  have hgp : getPair (unsubscribe (Subscription.active p (Listener.cb i0 none)) w) p
      = { getPair w p with listeners := ls1 ++ ls2 } := by
    show getPair (setPair w p
      { getPair w p with
        listeners := (getPair w p).listeners.filter
          (fun el => decide (el ≠ Listener.cb i0 none)) }) p = _
    rw [getPair_setPair_self _ _ _ hp, hl, hfil]
  have hf2 : (getPair (unsubscribe (Subscription.active p (Listener.cb i0 none)) w) p).onceFired
      = false := by rw [hgp]; exact hf
  have hpl2 : ∀ x ∈ (getPair (unsubscribe (Subscription.active p (Listener.cb i0 none)) w) p).listeners,
      plainL x = true := by
    rw [hgp]
    intro x hx
    rcases List.mem_append.1 hx with h1 | h2
    · exact hp1 x h1
    · exact hp2 x h2
  refine ⟨by rw [hgp], ?_, notes_id_free _ _ hid, unsubscribe_absent, unsubscribe_twice⟩
  rw [cancel_plain hf2 hpl2 r]
  show (unsubscribe (Subscription.active p (Listener.cb i0 none)) w).log
      ++ notes (getPair (unsubscribe (Subscription.active p (Listener.cb i0 none)) w) p).listeners
        (commitReason r) = _
  rw [hgp]
  rfl

/-- A world for the C4 witness: three listeners; the middle one will be
unsubscribed. -/
def c4World : World :=
  (subscribe 1 (Listener.cb 3 none) ((subscribe 1 (Listener.cb 2 none)
    ((subscribe 1 (Listener.cb 1 none) ((createCancelSource [] moduleWorld).1)).1)).1)).1

/-- Witness for C4: unsubscribing the middle listener leaves the other two,
which are then both (and only they) notified. -/
theorem c4_witness :
    (getPair c4World 1).listeners
        = [Listener.cb 1 none] ++ [Listener.cb 2 none] ++ [Listener.cb 3 none] ∧
    (getPair (unsubscribe (Subscription.active 1 (Listener.cb 2 none)) c4World) 1).listeners
        = [Listener.cb 1 none] ++ [Listener.cb 3 none] ∧
    (cancel 1 JSVal.undef (unsubscribe (Subscription.active 1 (Listener.cb 2 none)) c4World)).log
        = c4World.log ++ notes ([Listener.cb 1 none] ++ [Listener.cb 3 none]) (commitReason JSVal.undef) := by
  have h := c4_unsubscribe_excludes_listener c4World 1 JSVal.undef 2
    [Listener.cb 1 none] [Listener.cb 3 none] (by decide) (by decide)
    (by decide) (by decide) (by decide) (by decide) (by decide)
  exact ⟨by decide, h.1, h.2.1⟩

/-! ## C6 -/

/-- C6: a throwing listener does not stop the batch — every later listener
is still notified, in order — and its error is never an exception of
`cancel` or `subscribe` themselves: both return normally and the error goes
to the deferred channel (`setTimeout` re-throw), surfacing only after the
synchronous call. -/
theorem c6_throwing_listener_isolated (w : World) (p : Nat) (r e : JSVal) (j : Nat)
    (ls1 ls2 : List Listener)
    (hl : (getPair w p).listeners = ls1 ++ [Listener.cb j (some e)] ++ ls2)
    (hf : (getPair w p).onceFired = false)
    (hp1 : ∀ x ∈ ls1, plainL x = true) (hp2 : ∀ x ∈ ls2, plainL x = true) :
    (cancel p r w).log = w.log ++ notes ls1 (commitReason r) ++ [(j, commitReason r)]
        ++ notes ls2 (commitReason r) ∧
    (cancel p r w).deferredErrors = w.deferredErrors ++ defers ls1 ++ [e] ++ defers ls2 ∧
    (∀ w2 p2 i2 e2, truthy (getPair w2 p2).reason = true →
      ((subscribe p2 (Listener.cb i2 (some e2)) w2).1).log
          = w2.log ++ [(i2, (getPair w2 p2).reason)] ∧
      ((subscribe p2 (Listener.cb i2 (some e2)) w2).1).deferredErrors
          = w2.deferredErrors ++ [e2]) := by
  have hpl : ∀ x ∈ (getPair w p).listeners, plainL x = true := by
    rw [hl]
    intro x hx
    rcases List.mem_append.1 hx with h1 | h2
    · rcases List.mem_append.1 h1 with ha | hb
      · exact hp1 x ha
      · simp only [List.mem_singleton] at hb
        subst hb
        rfl
    · exact hp2 x h2
  have hc := cancel_plain hf hpl r
  refine ⟨?_, ?_, ?_⟩
  · conv_lhs => rw [hc]
    show w.log ++ notes (getPair w p).listeners (commitReason r) = _
    rw [hl, notes_append, notes_append]
    simp [notes, List.append_assoc]
  · conv_lhs => rw [hc]
    show w.deferredErrors ++ defers (getPair w p).listeners = _
    rw [hl, defers_append, defers_append]
    simp [defers, List.append_assoc]
  · intro w2 p2 i2 e2 h2
    constructor <;> simp [subscribe, h2, invokeListener]

/-- A world for the C6 witness: a throwing listener followed by a plain
one. -/
def c6World : World :=
  (subscribe 1 (Listener.cb 2 none) ((subscribe 1 (Listener.cb 1 (some (JSVal.err "fatality")))
    ((createCancelSource [] moduleWorld).1)).1)).1

/-- Witness for C6: the listener after the thrower is still notified, and
`fatality` surfaces on the deferred channel only. -/
theorem c6_witness :
    (getPair c6World 1).listeners
        = [] ++ [Listener.cb 1 (some (JSVal.err "fatality"))] ++ [Listener.cb 2 none] ∧
    (cancel 1 JSVal.undef c6World).log
        = c6World.log ++ notes [] (commitReason JSVal.undef) ++ [(1, commitReason JSVal.undef)]
          ++ notes [Listener.cb 2 none] (commitReason JSVal.undef) ∧
    (cancel 1 JSVal.undef c6World).deferredErrors
        = c6World.deferredErrors ++ defers [] ++ [JSVal.err "fatality"] ++ defers [Listener.cb 2 none] := by
  have h := c6_throwing_listener_isolated c6World 1 JSVal.undef (JSVal.err "fatality") 1
    [] [Listener.cb 2 none] (by decide) (by decide) (by decide) (by decide)
  exact ⟨by decide, h.1, h.2.1⟩

/-! ## C9 -/

theorem forEachListener_one (canc : Nat → JSVal → World → World) (l : Listener)
    (r : JSVal) (w : World) : forEachListener canc [l] r w = invokeListener canc r l w := rfl

theorem cancelFn_fired_rw (fuel : Nat) (p : Nat) (r : JSVal) (w : World)
    (h : (getPair w p).onceFired = true) : cancelFn fuel p r w = w :=
  cancelFn_fired h fuel r

/-- C9: a listener that re-enters the same pair's `cancel` during the first
notification batch — directly, or because the pair's own `cancel` was
subscribed back to it via a cascade — finds the `once` guard already
cleared, so the nested call is a total no-op: the committed reason and the
rest of the notification order are exactly as for a plain batch. -/
theorem c9_reentrant_cancel_is_noop (w : World) (p : Nat) (r r2 : JSVal) (j : Nat)
    (ls1 ls2 : List Listener)
    (hf : (getPair w p).onceFired = false)
    (hp1 : ∀ x ∈ ls1, plainL x = true) (hp2 : ∀ x ∈ ls2, plainL x = true) :
    ((getPair w p).listeners = ls1 ++ [Listener.cbCancel j p r2] ++ ls2 →
      (getPair (cancel p r w) p).reason = commitReason r ∧
      (getPair (cancel p r w) p).onceFired = true ∧
      (cancel p r w).log = w.log ++ notes ls1 (commitReason r) ++ [(j, commitReason r)]
          ++ notes ls2 (commitReason r) ∧
      (cancel p r w).deferredErrors = w.deferredErrors ++ defers ls1 ++ defers ls2) ∧
    ((getPair w p).listeners = ls1 ++ [Listener.childCancel p] ++ ls2 →
      (getPair (cancel p r w) p).reason = commitReason r ∧
      (getPair (cancel p r w) p).onceFired = true ∧
      (cancel p r w).log = w.log ++ notes ls1 (commitReason r) ++ notes ls2 (commitReason r) ∧
      (cancel p r w).deferredErrors = w.deferredErrors ++ defers ls1 ++ defers ls2) := by
  have hp := lt_of_not_fired hf
  constructor
  · intro hl
    have heq : cancel p r w =
        { setPair w p { getPair w p with reason := commitReason r, onceFired := true } with
          log := w.log ++ notes ls1 (commitReason r) ++ [(j, commitReason r)]
              ++ notes ls2 (commitReason r),
          deferredErrors := w.deferredErrors ++ defers ls1 ++ defers ls2 } := by
      rw [cancel_productive hf, hl, forEachListener_append, forEachListener_append,
          forEach_plain _ _ _ hp1, forEachListener_one]
      simp only [invokeListener]
      rw [cancelFn_fired_rw]
      · rw [forEach_plain _ _ _ hp2]
        rfl
      · show (getPair (setPair w p
          { getPair w p with reason := commitReason r, onceFired := true }) p).onceFired = true
        rw [getPair_setPair_self _ _ _ hp]
    refine ⟨?_, ?_, by rw [heq], by rw [heq]⟩
    · rw [heq]
      show (getPair (setPair w p
        { getPair w p with reason := commitReason r, onceFired := true }) p).reason = _
      rw [getPair_setPair_self _ _ _ hp]
    · rw [heq]
      show (getPair (setPair w p
        { getPair w p with reason := commitReason r, onceFired := true }) p).onceFired = true
      rw [getPair_setPair_self _ _ _ hp]
  · intro hl
    have heq : cancel p r w =
        { setPair w p { getPair w p with reason := commitReason r, onceFired := true } with
          log := w.log ++ notes ls1 (commitReason r) ++ notes ls2 (commitReason r),
          deferredErrors := w.deferredErrors ++ defers ls1 ++ defers ls2 } := by
      rw [cancel_productive hf, hl, forEachListener_append, forEachListener_append,
          forEach_plain _ _ _ hp1, forEachListener_one]
      simp only [invokeListener]
      rw [cancelFn_fired_rw]
      · rw [forEach_plain _ _ _ hp2]
        rfl
      · show (getPair (setPair w p
          { getPair w p with reason := commitReason r, onceFired := true }) p).onceFired = true
        rw [getPair_setPair_self _ _ _ hp]
    refine ⟨?_, ?_, by rw [heq], by rw [heq]⟩
    · rw [heq]
      show (getPair (setPair w p
        { getPair w p with reason := commitReason r, onceFired := true }) p).reason = _
      rw [getPair_setPair_self _ _ _ hp]
    · rw [heq]
      show (getPair (setPair w p
        { getPair w p with reason := commitReason r, onceFired := true }) p).onceFired = true
      rw [getPair_setPair_self _ _ _ hp]

/-- A world for the C9 witness: a plain listener, then one that re-enters
the same pair's `cancel` with a different reason. -/
def c9World : World :=
  (subscribe 1 (Listener.cbCancel 20 1 (JSVal.err "other"))
    ((subscribe 1 (Listener.cb 21 none) ((createCancelSource [] moduleWorld).1)).1)).1

/-- Witness for C9: the re-entrant `cancel` changes neither the committed
reason nor the delivery. -/
theorem c9_witness :
    (getPair c9World 1).listeners
        = [Listener.cb 21 none] ++ [Listener.cbCancel 20 1 (JSVal.err "other")] ++ [] ∧
    ((getPair (cancel 1 (JSVal.err "first") c9World) 1).reason = commitReason (JSVal.err "first") ∧
      (getPair (cancel 1 (JSVal.err "first") c9World) 1).onceFired = true ∧
      (cancel 1 (JSVal.err "first") c9World).log
          = c9World.log ++ notes [Listener.cb 21 none] (commitReason (JSVal.err "first"))
            ++ [(20, commitReason (JSVal.err "first"))] ++ notes [] (commitReason (JSVal.err "first")) ∧
      (cancel 1 (JSVal.err "first") c9World).deferredErrors
          = c9World.deferredErrors ++ defers [Listener.cb 21 none] ++ defers []) := by
  have h := (c9_reentrant_cancel_is_noop c9World 1 (JSVal.err "first") (JSVal.err "other") 20
    [Listener.cb 21 none] [] (by decide) (by decide) (by decide)).1 (by decide)
  exact ⟨by decide, h⟩

/-! ## C10 -/

/-- C10: when the same listener function value was subscribed several times
to a not-yet-canceled token, one `unsubscribe` removes every occurrence (the
filter removes by value identity), so a subsequent `cancel` invokes that
listener zero times — not once per remaining subscription. -/
theorem c10_unsubscribe_removes_duplicates (w : World) (p : Nat) (r : JSVal) (i : Nat)
    (ls : List Listener)
    (hl : (getPair w p).listeners = ls)
    (hf : (getPair w p).onceFired = false)
    (_hdup : 2 ≤ ls.count (Listener.cb i none))
    (hpl : ∀ x ∈ ls, plainL x = true)
    (hid : ∀ x ∈ ls, listenerIdIs i x = true → x = Listener.cb i none) :
    (getPair (unsubscribe (Subscription.active p (Listener.cb i none)) w) p).listeners
        = ls.filter (fun el => decide (el ≠ Listener.cb i none)) ∧
    Listener.cb i none ∉ ls.filter (fun el => decide (el ≠ Listener.cb i none)) ∧
    (cancel p r (unsubscribe (Subscription.active p (Listener.cb i none)) w)).log
        = w.log ++ notes (ls.filter (fun el => decide (el ≠ Listener.cb i none))) (commitReason r) ∧
    (∀ q ∈ notes (ls.filter (fun el => decide (el ≠ Listener.cb i none))) (commitReason r),
        q.1 ≠ i) := by
  have hp := lt_of_not_fired hf
  have hgp : getPair (unsubscribe (Subscription.active p (Listener.cb i none)) w) p
      = { getPair w p with
          listeners := ls.filter (fun el => decide (el ≠ Listener.cb i none)) } := by
    show getPair (setPair w p
      { getPair w p with
        listeners := (getPair w p).listeners.filter
          (fun el => decide (el ≠ Listener.cb i none)) }) p = _
    rw [getPair_setPair_self _ _ _ hp, hl]
  have hf2 : (getPair (unsubscribe (Subscription.active p (Listener.cb i none)) w) p).onceFired
      = false := by rw [hgp]; exact hf
  have hpl2 : ∀ x ∈ (getPair (unsubscribe (Subscription.active p (Listener.cb i none)) w) p).listeners,
      plainL x = true := by
    rw [hgp]
    intro x hx
    exact hpl x (List.mem_filter.1 hx).1
  have hidf : ∀ x ∈ ls.filter (fun el => decide (el ≠ Listener.cb i none)),
      listenerIdIs i x = false := by
    intro x hx
    rcases List.mem_filter.1 hx with ⟨hxl, hxne⟩
    cases hb : listenerIdIs i x with
    | false => rfl
    | true =>
        have hxe := hid x hxl hb
        rw [hxe] at hxne
        simp at hxne
  refine ⟨by rw [hgp], ?_, ?_, notes_id_free _ _ hidf⟩
  · intro hmem
    have := (List.mem_filter.1 hmem).2
    simp at this
  · rw [cancel_plain hf2 hpl2 r]
    show (unsubscribe (Subscription.active p (Listener.cb i none)) w).log
        ++ notes (getPair (unsubscribe (Subscription.active p (Listener.cb i none)) w) p).listeners
          (commitReason r) = _
    rw [hgp]
    rfl

/-- A world for the C10 witness: the same listener value subscribed twice
around a different one. -/
def c10World : World :=
  (subscribe 1 (Listener.cb 7 none) ((subscribe 1 (Listener.cb 8 none)
    ((subscribe 1 (Listener.cb 7 none) ((createCancelSource [] moduleWorld).1)).1)).1)).1

/-- Witness for C10: one `unsubscribe` removes both occurrences of listener
7; the cancellation then logs nothing for id 7. -/
theorem c10_witness :
    2 ≤ ([Listener.cb 7 none, Listener.cb 8 none, Listener.cb 7 none].count (Listener.cb 7 none)) ∧
    ((getPair (unsubscribe (Subscription.active 1 (Listener.cb 7 none)) c10World) 1).listeners
        = [Listener.cb 7 none, Listener.cb 8 none, Listener.cb 7 none].filter
            (fun el => decide (el ≠ Listener.cb 7 none)) ∧
      Listener.cb 7 none ∉ [Listener.cb 7 none, Listener.cb 8 none, Listener.cb 7 none].filter
            (fun el => decide (el ≠ Listener.cb 7 none)) ∧
      (cancel 1 JSVal.undef (unsubscribe (Subscription.active 1 (Listener.cb 7 none)) c10World)).log
        = c10World.log ++ notes ([Listener.cb 7 none, Listener.cb 8 none, Listener.cb 7 none].filter
            (fun el => decide (el ≠ Listener.cb 7 none))) (commitReason JSVal.undef) ∧
      (∀ q ∈ notes ([Listener.cb 7 none, Listener.cb 8 none, Listener.cb 7 none].filter
            (fun el => decide (el ≠ Listener.cb 7 none))) (commitReason JSVal.undef), q.1 ≠ 7)) := by
  have h := c10_unsubscribe_removes_duplicates c10World 1 JSVal.undef 7
    [Listener.cb 7 none, Listener.cb 8 none, Listener.cb 7 none]
    (by decide) (by decide) (by decide) (by decide) (by decide)
  exact ⟨by decide, h⟩

/-! ## C7

The original claim says a non-callable listener never produces an error,
neither synchronously nor later.  The code has no callable-check in
`invokeListener`: calling the non-callable throws a `TypeError`, which the
`try/catch` catches and re-throws inside `setTimeout` — so an error *is*
raised later whenever the non-callable is actually invoked (immediately on
`subscribe` after cancellation, or at cancellation time if it was stored).
-/

/-- A world for C7: a pair already canceled with reason `stop`. -/
def c7World : World := cancel 1 (JSVal.err "stop") (createCancelSource [] moduleWorld).1

/-- C7 counterexample: subscribing the non-callable value to an
already-canceled token pushes a `TypeError` onto the deferred re-throw
channel, so an error for it *is* raised (asynchronously), contrary to the
claim that none is ever raised anywhere. -/
theorem c7_counterexample :
    truthy (getPair c7World 1).reason = true ∧
    c7World.deferredErrors = [] ∧
    ((subscribe 1 (Listener.nonCallable 7) c7World).1).deferredErrors = [typeError] := by
  decide

/-- C7 (amended): `subscribe` itself never raises, whether or not the token
is canceled.  On a live token the non-callable is stored and nothing
happens (yet).  But whenever the non-callable is invoked — immediately when
subscribing to an already-canceled token, or at cancellation time when it
was stored — the `TypeError` from calling it is caught and re-raised
asynchronously on the deferred channel, exactly like a throwing listener;
it is silent only as long as it is never invoked. -/
theorem c7_noncallable_defers_typeerror (w : World) (p : Nat) (i : Nat) (r : JSVal) :
    (truthy (getPair w p).reason = false →
      subscribe p (Listener.nonCallable i) w
        = (setPair w p { getPair w p with
            listeners := (getPair w p).listeners ++ [Listener.nonCallable i] },
           Subscription.active p (Listener.nonCallable i))) ∧
    (truthy (getPair w p).reason = true →
      subscribe p (Listener.nonCallable i) w
        = ({ w with deferredErrors := w.deferredErrors ++ [typeError] }, Subscription.empty)) ∧
    ((getPair w p).listeners = [Listener.nonCallable i] → (getPair w p).onceFired = false →
      (cancel p r w).deferredErrors = w.deferredErrors ++ [typeError]) := by
  refine ⟨fun h => ?_, fun h => ?_, fun hl hf => ?_⟩
  · simp [subscribe, h]
  · simp [subscribe, h, invokeListener]
  · have hpl : ∀ x ∈ (getPair w p).listeners, plainL x = true := by
      rw [hl]; intro x hx
      simp only [List.mem_singleton] at hx
      subst hx; rfl
    rw [cancel_plain hf hpl r]
    show w.deferredErrors ++ defers (getPair w p).listeners = _
    rw [hl]
    rfl

/-- Witness for the amended C7, covering both branches of `subscribe`. -/
theorem c7_witness :
    truthy (getPair (createCancelSource [] moduleWorld).1 1).reason = false ∧
    subscribe 1 (Listener.nonCallable 9) (createCancelSource [] moduleWorld).1
      = (setPair (createCancelSource [] moduleWorld).1 1
          { getPair (createCancelSource [] moduleWorld).1 1 with
            listeners := (getPair (createCancelSource [] moduleWorld).1 1).listeners
              ++ [Listener.nonCallable 9] },
         Subscription.active 1 (Listener.nonCallable 9)) ∧
    truthy (getPair c7World 1).reason = true ∧
    subscribe 1 (Listener.nonCallable 9) c7World
      = ({ c7World with deferredErrors := c7World.deferredErrors ++ [typeError] },
         Subscription.empty) := by
  have h1 := c7_noncallable_defers_typeerror (createCancelSource [] moduleWorld).1 1 9 JSVal.undef
  have h2 := c7_noncallable_defers_typeerror c7World 1 9 JSVal.undef
  exact ⟨by decide, h1.1 (by decide), by decide, h2.2.1 (by decide)⟩

/-! ## The factory and parent cascades (C5) -/

theorem getPair_appendPair (w : World) (d : CancelData) {q : Nat}
    (h : q < w.pairs.length) :
    getPair { w with pairs := w.pairs ++ [d] } q = getPair w q := by
  show (w.pairs ++ [d]).getD q dummyPair = w.pairs.getD q dummyPair
  exact List.getD_append _ _ _ _ h

theorem getPair_appendPair_self (w : World) (d : CancelData) :
    getPair { w with pairs := w.pairs ++ [d] } w.pairs.length = d := by
  show (w.pairs ++ [d]).getD w.pairs.length dummyPair = d
  rw [List.getD_append_right _ _ _ _ (le_refl _), Nat.sub_self]
  rfl

/-- Effect of the factory's `parentTokens.map((token) => token.subscribe(cancel))`
loop when every named parent exists and is still uncanceled: nothing is
invoked, and each parent `t` just gains one copy of the child's `cancel`
per occurrence of `t` in the list, at the end of its listener list. -/
theorem foldl_subscribe_cc (c : Nat) :
    ∀ (ts : List Nat) (w : World),
    (∀ t ∈ ts, t < w.pairs.length ∧ truthy (getPair w t).reason = false) →
    ((ts.foldl (fun acc t => (subscribe t (Listener.childCancel c) acc).1) w).pairs.length
        = w.pairs.length ∧
     (ts.foldl (fun acc t => (subscribe t (Listener.childCancel c) acc).1) w).deferredErrors
        = w.deferredErrors ∧
     (ts.foldl (fun acc t => (subscribe t (Listener.childCancel c) acc).1) w).log = w.log) ∧
    (∀ q, (getPair (ts.foldl (fun acc t => (subscribe t (Listener.childCancel c) acc).1) w) q).reason
            = (getPair w q).reason ∧
          (getPair (ts.foldl (fun acc t => (subscribe t (Listener.childCancel c) acc).1) w) q).onceFired
            = (getPair w q).onceFired ∧
          (getPair (ts.foldl (fun acc t => (subscribe t (Listener.childCancel c) acc).1) w) q).listeners
            = (getPair w q).listeners ++ List.replicate (ts.count q) (Listener.childCancel c)) := by
  intro ts
  induction ts with
  | nil =>
      intro w _
      refine ⟨⟨rfl, rfl, rfl⟩, fun q => ⟨rfl, rfl, ?_⟩⟩
      simp
  | cons t ts ih =>
      intro w h
      have ht := h t (by simp)
      have hsub : (subscribe t (Listener.childCancel c) w).1
          = setPair w t { getPair w t with
              listeners := (getPair w t).listeners ++ [Listener.childCancel c] } := by
        simp [subscribe, ht.2]
      have hts : ∀ t2 ∈ ts, t2 < (setPair w t { getPair w t with
          listeners := (getPair w t).listeners ++ [Listener.childCancel c] }).pairs.length ∧
          truthy (getPair (setPair w t { getPair w t with
            listeners := (getPair w t).listeners ++ [Listener.childCancel c] }) t2).reason
            = false := by
        intro t2 ht2
        have h2 := h t2 (by simp [ht2])
        refine ⟨by rw [pairsLength_setPair]; exact h2.1, ?_⟩
        by_cases hq : t = t2
        · subst hq; rw [getPair_setPair_self _ _ _ ht.1]; exact h2.2
        · rw [getPair_setPair_ne _ _ hq]; exact h2.2
      have IH := ih (setPair w t { getPair w t with
          listeners := (getPair w t).listeners ++ [Listener.childCancel c] }) hts
      have hfold : (t :: ts).foldl (fun acc t2 => (subscribe t2 (Listener.childCancel c) acc).1) w
          = ts.foldl (fun acc t2 => (subscribe t2 (Listener.childCancel c) acc).1)
              (setPair w t { getPair w t with
                listeners := (getPair w t).listeners ++ [Listener.childCancel c] }) := by
        show ts.foldl (fun acc t2 => (subscribe t2 (Listener.childCancel c) acc).1)
            ((subscribe t (Listener.childCancel c) w).1) = _
        rw [hsub]
      rw [hfold]
      refine ⟨⟨?_, ?_, ?_⟩, ?_⟩
      · rw [IH.1.1, pairsLength_setPair]
      · rw [IH.1.2.1]; rfl
      · rw [IH.1.2.2]; rfl
      intro q
      refine ⟨?_, ?_, ?_⟩
      · rw [(IH.2 q).1]
        by_cases hq : t = q
        · subst hq; rw [getPair_setPair_self _ _ _ ht.1]
        · rw [getPair_setPair_ne _ _ hq]
      · rw [(IH.2 q).2.1]
        by_cases hq : t = q
        · subst hq; rw [getPair_setPair_self _ _ _ ht.1]
        · rw [getPair_setPair_ne _ _ hq]
      · rw [(IH.2 q).2.2]
        by_cases hq : t = q
        · subst hq
          rw [getPair_setPair_self _ _ _ ht.1]
          show ((getPair w t).listeners ++ [Listener.childCancel c])
              ++ List.replicate (ts.count t) (Listener.childCancel c) = _
          rw [List.count_cons_self, List.append_assoc]
          simp [List.replicate_succ]
        · rw [getPair_setPair_ne _ _ hq]
          have : (t :: ts).count q = ts.count q := by
            rw [List.count_cons]
            simp [hq]
          rw [this]

/-- Extra copies of an already-fired pair's `cancel` in a batch are all
no-ops. -/
theorem forEach_replicate_cc_fired (c f : Nat) (r : JSVal) :
    ∀ (k : Nat) (w : World), (getPair w c).onceFired = true →
    forEachListener (cancelFn f) (List.replicate k (Listener.childCancel c)) r w = w := by
  intro k
  induction k with
  | zero => intro w _; rfl
  | succ k ih =>
      intro w hw
      rw [List.replicate_succ]
      show forEachListener (cancelFn f) (List.replicate k (Listener.childCancel c)) r
          (invokeListener (cancelFn f) r (Listener.childCancel c) w) = w
      show forEachListener (cancelFn f) (List.replicate k (Listener.childCancel c)) r
          (cancelFn f c r w) = w
      rw [cancelFn_fired_rw _ _ _ _ hw]
      exact ih w hw

/-- `subscribe` on an already-canceled pair: immediate invocation, no-op
subscription. -/
theorem subscribe_on_canceled (w : World) (p : Nat) (l : Listener)
    (h : truthy (getPair w p).reason = true) :
    subscribe p l w = (invokeListener (cancelFn w.pairs.length) (getPair w p).reason l w,
      Subscription.empty) := by
  simp [subscribe, h]

/-- `subscribe` on a live pair: the listener is pushed. -/
theorem subscribe_on_live (w : World) (p : Nat) (l : Listener)
    (h : truthy (getPair w p).reason = false) :
    subscribe p l w = (setPair w p { getPair w p with
      listeners := (getPair w p).listeners ++ [l] }, Subscription.active p l) := by
  simp [subscribe, h]

/-- Canceling a freshly created pair (no listeners yet): commit and fire,
nothing to notify. -/
theorem cancelFn_fresh {w : World} {c : Nat}
    (h : getPair w c = { reason := JSVal.null, listeners := [], onceFired := false })
    (f : Nat) (r : JSVal) :
    cancelFn (f + 1) c r w
      = setPair w c { reason := commitReason r, listeners := [], onceFired := true } := by
  have hf : (getPair w c).onceFired = false := by rw [h]
  rw [cancelFn_productive hf, h]
  rfl

/-- What `createCancelSource` does when all the parents exist and are still
uncanceled: one fresh pair is appended, each parent gains one copy of the
child's `cancel` per listing, nothing is invoked. -/
theorem createCancelSource_uncanceled (w : World) (parents : List Nat)
    (hps : ∀ t ∈ parents, t < w.pairs.length ∧ truthy (getPair w t).reason = false) :
    ((createCancelSource parents w).1).pairs.length = w.pairs.length + 1 ∧
    ((createCancelSource parents w).1).deferredErrors = w.deferredErrors ∧
    ((createCancelSource parents w).1).log = w.log ∧
    (∀ q, q < w.pairs.length →
      (getPair (createCancelSource parents w).1 q).reason = (getPair w q).reason ∧
      (getPair (createCancelSource parents w).1 q).onceFired = (getPair w q).onceFired ∧
      (getPair (createCancelSource parents w).1 q).listeners
        = (getPair w q).listeners
          ++ List.replicate (parents.count q) (Listener.childCancel w.pairs.length)) ∧
    getPair (createCancelSource parents w).1 w.pairs.length
      = { reason := JSVal.null, listeners := [], onceFired := false } := by
  have hW1 : ∀ t ∈ parents, t < ({ w with pairs := w.pairs
        ++ [({ reason := JSVal.null, listeners := [], onceFired := false } : CancelData)] }
          : World).pairs.length ∧
      truthy (getPair { w with pairs := w.pairs
        ++ [({ reason := JSVal.null, listeners := [], onceFired := false } : CancelData)] }
          t).reason = false := by
    intro t htm
    have h1 := hps t htm
    constructor
    · show t < (w.pairs ++ [_]).length
      rw [List.length_append]
      omega
    · rw [getPair_appendPair _ _ h1.1]
      exact h1.2
  have FD := foldl_subscribe_cc w.pairs.length parents _ hW1
  have hcr : (createCancelSource parents w).1
      = parents.foldl (fun acc t => (subscribe t (Listener.childCancel w.pairs.length) acc).1)
          { w with pairs := w.pairs
            ++ [({ reason := JSVal.null, listeners := [], onceFired := false } : CancelData)] } :=
    rfl
  refine ⟨?_, ?_, ?_, ?_, ?_⟩
  · rw [hcr, FD.1.1]
    show (w.pairs ++ [_]).length = _
    rw [List.length_append]
    rfl
  · rw [hcr, FD.1.2.1]
  · rw [hcr, FD.1.2.2]
  · intro q hq
    have hgq := FD.2 q
    have ha : getPair { w with pairs := w.pairs
        ++ [({ reason := JSVal.null, listeners := [], onceFired := false } : CancelData)] } q
          = getPair w q := getPair_appendPair _ _ hq
    exact ⟨by rw [hcr, hgq.1, ha], by rw [hcr, hgq.2.1, ha], by rw [hcr, hgq.2.2, ha]⟩
  · have hnotmem : w.pairs.length ∉ parents := fun hm => absurd ((hps _ hm).1) (lt_irrefl _)
    have hcount : parents.count w.pairs.length = 0 := List.count_eq_zero.2 hnotmem
    have h1 := (FD.2 w.pairs.length).1
    have h2 := (FD.2 w.pairs.length).2.1
    have h3 := (FD.2 w.pairs.length).2.2
    rw [getPair_appendPair_self] at h1 h2 h3
    rw [hcount] at h3
    simp only [List.replicate_zero, List.append_nil] at h3
    have heta : getPair (createCancelSource parents w).1 w.pairs.length
        = { reason := (getPair (createCancelSource parents w).1 w.pairs.length).reason,
            listeners := (getPair (createCancelSource parents w).1 w.pairs.length).listeners,
            onceFired := (getPair (createCancelSource parents w).1 w.pairs.length).onceFired } :=
      rfl
    rw [heta, hcr, h1, h2, h3]

/-- The cascade part of a parent's notification batch: plain listeners
first, then one or more copies of a fresh child's `cancel`; the first copy
cancels the child, the rest are no-ops. -/
theorem forEach_cascade (c f k : Nat) (r1 : JSVal) (origLs : List Listener)
    (hpl : ∀ l ∈ origLs, plainL l = true) (V : World)
    (hc : getPair V c = { reason := JSVal.null, listeners := [], onceFired := false })
    (hlt : c < V.pairs.length) :
    forEachListener (cancelFn (f + 1))
        (origLs ++ List.replicate (k + 1) (Listener.childCancel c)) r1 V
      = setPair { V with log := V.log ++ notes origLs r1,
                         deferredErrors := V.deferredErrors ++ defers origLs }
          c { reason := commitReason r1, listeners := [], onceFired := true } := by
  rw [forEachListener_append, forEach_plain _ _ _ hpl, List.replicate_succ]
  show forEachListener (cancelFn (f + 1)) (List.replicate k (Listener.childCancel c)) r1
      (cancelFn (f + 1) c r1
        { V with log := V.log ++ notes origLs r1,
                 deferredErrors := V.deferredErrors ++ defers origLs }) = _
  have hcA : getPair { V with log := V.log ++ notes origLs r1,
                              deferredErrors := V.deferredErrors ++ defers origLs } c
        = { reason := JSVal.null, listeners := [], onceFired := false } := hc
  have hltA : c < ({ V with log := V.log ++ notes origLs r1,
                            deferredErrors := V.deferredErrors ++ defers origLs }
      : World).pairs.length :=
    hlt
  rw [cancelFn_fresh hcA f r1]
  exact forEach_replicate_cc_fired c (f + 1) r1 k _
    (by rw [getPair_setPair_self _ _ _ hltA])

/-- Canceling a pair whose listeners are some plain callbacks followed by
one or more copies of a fresh pair `c`'s `cancel`: both pairs end up
committed with the same reason. -/
theorem cancel_with_cascade (w2 : World) (pt c : Nat) (r : JSVal)
    (origLs : List Listener) (k : Nat)
    (hpl : ∀ l ∈ origLs, plainL l = true)
    (hf2 : (getPair w2 pt).onceFired = false)
    (hsnap : (getPair w2 pt).listeners
        = origLs ++ List.replicate (k + 1) (Listener.childCancel c))
    (hCfresh : getPair w2 c = { reason := JSVal.null, listeners := [], onceFired := false })
    (hclt : c < w2.pairs.length)
    (hlen2 : 2 ≤ w2.pairs.length) :
    (getPair (cancel pt r w2) c).reason = commitReason r ∧
    (getPair (cancel pt r w2) c).onceFired = true ∧
    (getPair (cancel pt r w2) pt).reason = commitReason r ∧
    (getPair (cancel pt r w2) pt).onceFired = true := by
  have hptlt : pt < w2.pairs.length := lt_of_not_fired hf2
  have hptc : pt ≠ c := by
    intro he
    rw [he, hCfresh] at hf2
    rw [he] at hsnap
    rw [hCfresh] at hsnap
    simp at hsnap
  obtain ⟨f, hfe⟩ : ∃ f, w2.pairs.length - 1 = f + 1 := ⟨w2.pairs.length - 2, by omega⟩
  have hW3c : getPair (setPair w2 pt
      { getPair w2 pt with reason := commitReason r, onceFired := true }) c
        = { reason := JSVal.null, listeners := [], onceFired := false } := by
    rw [getPair_setPair_ne _ _ hptc]
    exact hCfresh
  have hW3lt : c < (setPair w2 pt
      { getPair w2 pt with reason := commitReason r, onceFired := true }).pairs.length := by
    rw [pairsLength_setPair]
    exact hclt
  have heq : cancel pt r w2
      = setPair
          { (setPair w2 pt { getPair w2 pt with reason := commitReason r, onceFired := true }) with
            log := (setPair w2 pt
                { getPair w2 pt with reason := commitReason r, onceFired := true }).log
              ++ notes origLs (commitReason r),
            deferredErrors := (setPair w2 pt
                { getPair w2 pt with reason := commitReason r, onceFired := true }).deferredErrors
              ++ defers origLs }
          c { reason := commitReason r, listeners := [], onceFired := true } := by
    rw [cancel_productive hf2, hsnap, hfe]
    rw [forEach_cascade c f k (commitReason r) origLs hpl _ hW3c hW3lt]
    rw [commitReason_idem]
  have hlt2 : c < ({ (setPair w2 pt
      { getPair w2 pt with reason := commitReason r, onceFired := true }) with
        log := (setPair w2 pt
            { getPair w2 pt with reason := commitReason r, onceFired := true }).log
          ++ notes origLs (commitReason r),
        deferredErrors := (setPair w2 pt
            { getPair w2 pt with reason := commitReason r, onceFired := true }).deferredErrors
          ++ defers origLs } : World).pairs.length := hW3lt
  have hc1 : getPair (cancel pt r w2) c
      = { reason := commitReason r, listeners := [], onceFired := true } := by
    rw [heq, getPair_setPair_self _ _ _ hlt2]
  have hc2 : getPair (cancel pt r w2) pt
      = { getPair w2 pt with reason := commitReason r, onceFired := true } := by
    rw [heq, getPair_setPair_ne _ _ (Ne.symm hptc)]
    show getPair (setPair w2 pt
        { getPair w2 pt with reason := commitReason r, onceFired := true }) pt = _
    exact getPair_setPair_self _ _ _ hptlt
  exact ⟨by rw [hc1], by rw [hc1], by rw [hc2], by rw [hc2]⟩

/-! ## C5 -/

/-- C5: a child created by the factory from one or more parent tokens is
canceled with the triggering parent's committed reason as soon as any
single parent cancels; and a child created from an already-canceled parent
is canceled, with that parent's reason, within the factory call itself. -/
theorem c5_parent_cascade_cancels_child :
    (∀ (w : World) (parents : List Nat) (pt : Nat) (r : JSVal),
      pt ∈ parents →
      (∀ t ∈ parents, t < w.pairs.length ∧ (getPair w t).reason = JSVal.null ∧
        (getPair w t).onceFired = false ∧ (∀ l ∈ (getPair w t).listeners, plainL l = true)) →
      isCanceled (cancel pt r (createCancelSource parents w).1)
          ((createCancelSource parents w).2) = true ∧
      (getPair (cancel pt r (createCancelSource parents w).1)
          ((createCancelSource parents w).2)).reason = commitReason r ∧
      (getPair (cancel pt r (createCancelSource parents w).1) pt).reason = commitReason r) ∧
    (∀ (w : World) (pt : Nat), pt < w.pairs.length →
      truthy (getPair w pt).reason = true → (getPair w pt).onceFired = true →
      isCanceled ((createCancelSource [pt] w).1) ((createCancelSource [pt] w).2) = true ∧
      (getPair ((createCancelSource [pt] w).1) ((createCancelSource [pt] w).2)).reason
          = (getPair w pt).reason) := by
  constructor
  · intro w parents pt r hmem hps
    have hlt : pt < w.pairs.length := (hps pt hmem).1
    have hps2 : ∀ t ∈ parents, t < w.pairs.length ∧ truthy (getPair w t).reason = false := by
      intro t ht
      exact ⟨(hps t ht).1, by rw [(hps t ht).2.1]; rfl⟩
    have CR := createCancelSource_uncanceled w parents hps2
    have hpt := CR.2.2.2.1 pt hlt
    have hf2 : (getPair (createCancelSource parents w).1 pt).onceFired = false := by
      rw [hpt.2.1]
      exact (hps pt hmem).2.2.1
    obtain ⟨k, hk⟩ : ∃ k, parents.count pt = k + 1 := by
      have hpos : 0 < parents.count pt := List.count_pos_iff.2 hmem
      exact ⟨parents.count pt - 1, by omega⟩
    have hsnap : (getPair (createCancelSource parents w).1 pt).listeners
        = (getPair w pt).listeners
          ++ List.replicate (k + 1) (Listener.childCancel w.pairs.length) := by
      rw [hpt.2.2, hk]
    have CW := cancel_with_cascade (createCancelSource parents w).1 pt w.pairs.length r
      (getPair w pt).listeners k ((hps pt hmem).2.2.2) hf2 hsnap CR.2.2.2.2
      (by rw [CR.1]; omega) (by rw [CR.1]; omega)
    refine ⟨?_, ?_, ?_⟩
    · show truthy (getPair (cancel pt r (createCancelSource parents w).1)
        w.pairs.length).reason = true
      rw [CW.1]
      exact truthy_commitReason r
    · show (getPair (cancel pt r (createCancelSource parents w).1) w.pairs.length).reason
        = commitReason r
      exact CW.1
    · exact CW.2.2.1
  · intro w pt hlt hR hfired
    have hE : (createCancelSource [pt] w).1
        = (subscribe pt (Listener.childCancel w.pairs.length)
            { w with pairs := w.pairs
              ++ [({ reason := JSVal.null, listeners := [], onceFired := false }
                : CancelData)] }).1 := rfl
    have hcond : truthy (getPair { w with pairs := w.pairs
        ++ [({ reason := JSVal.null, listeners := [], onceFired := false }
          : CancelData)] } pt).reason = true := by
      rw [getPair_appendPair _ _ hlt]
      exact hR
    have hlen1 : ({ w with pairs := w.pairs
        ++ [({ reason := JSVal.null, listeners := [], onceFired := false }
          : CancelData)] } : World).pairs.length = w.pairs.length + 1 := by
      show (w.pairs ++ [_]).length = _
      rw [List.length_append]
      rfl
    have heq : (createCancelSource [pt] w).1
        = setPair { w with pairs := w.pairs
              ++ [({ reason := JSVal.null, listeners := [], onceFired := false }
                : CancelData)] }
            w.pairs.length
            { reason := commitReason (getPair w pt).reason, listeners := [],
              onceFired := true } := by
      rw [hE, subscribe_on_canceled _ _ _ hcond]
      show cancelFn ({ w with pairs := w.pairs
          ++ [({ reason := JSVal.null, listeners := [], onceFired := false }
            : CancelData)] } : World).pairs.length
        w.pairs.length
        (getPair { w with pairs := w.pairs
          ++ [({ reason := JSVal.null, listeners := [], onceFired := false }
            : CancelData)] } pt).reason
        { w with pairs := w.pairs
          ++ [({ reason := JSVal.null, listeners := [], onceFired := false }
            : CancelData)] } = _
      rw [hlen1, getPair_appendPair _ _ hlt,
        cancelFn_fresh (getPair_appendPair_self w _) _ _]
    have hltA : w.pairs.length < ({ w with pairs := w.pairs
        ++ [({ reason := JSVal.null, listeners := [], onceFired := false }
          : CancelData)] } : World).pairs.length := by
      rw [hlen1]
      omega
    have hgc : getPair (createCancelSource [pt] w).1 w.pairs.length
        = { reason := commitReason (getPair w pt).reason, listeners := [],
            onceFired := true } := by
      rw [heq, getPair_setPair_self _ _ _ hltA]
    constructor
    · show truthy (getPair (createCancelSource [pt] w).1 w.pairs.length).reason = true
      rw [hgc]
      show truthy (commitReason (getPair w pt).reason) = true
      exact truthy_commitReason _
    · show (getPair (createCancelSource [pt] w).1 w.pairs.length).reason
        = (getPair w pt).reason
      rw [hgc]
      show commitReason (getPair w pt).reason = (getPair w pt).reason
      exact commitReason_of_truthy hR

/-- Witness for C5: a child of pair 1 cancels with the parent's reason; a
child born from an already-canceled parent is canceled on creation. -/
theorem c5_witness :
    isCanceled
        (cancel 1 (JSVal.err "ptimeout")
          (createCancelSource [1] (createCancelSource [] moduleWorld).1).1)
        ((createCancelSource [1] (createCancelSource [] moduleWorld).1).2) = true ∧
    (getPair
        (cancel 1 (JSVal.err "ptimeout")
          (createCancelSource [1] (createCancelSource [] moduleWorld).1).1)
        ((createCancelSource [1] (createCancelSource [] moduleWorld).1).2)).reason
      = commitReason (JSVal.err "ptimeout") ∧
    isCanceled
        ((createCancelSource [1] (cancel 1 (JSVal.err "stop")
          (createCancelSource [] moduleWorld).1)).1)
        ((createCancelSource [1] (cancel 1 (JSVal.err "stop")
          (createCancelSource [] moduleWorld).1)).2) = true ∧
    (getPair
        ((createCancelSource [1] (cancel 1 (JSVal.err "stop")
          (createCancelSource [] moduleWorld).1)).1)
        ((createCancelSource [1] (cancel 1 (JSVal.err "stop")
          (createCancelSource [] moduleWorld).1)).2)).reason
      = (getPair (cancel 1 (JSVal.err "stop") (createCancelSource [] moduleWorld).1) 1).reason := by
  have h1 := c5_parent_cascade_cancels_child.1 (createCancelSource [] moduleWorld).1 [1] 1
    (JSVal.err "ptimeout") (by decide) (by decide)
  have h2 := c5_parent_cascade_cancels_child.2
    (cancel 1 (JSVal.err "stop") (createCancelSource [] moduleWorld).1) 1
    (by decide) (by decide) (by decide)
  exact ⟨h1.1, h1.2.1, h2.1, h2.2⟩

/-! ## C8: the empty token

`emptyToken` is the token of the pair manufactured at module load; its
`cancel` is never exported (`export default { create, emptyToken }`), so no
caller can obtain it, store it as a listener, or call it.  The public
surface is modelled as `Op`; the side conditions in `opOK` say exactly
that: `cancel` is only ever called for pairs other than pair 0, a listener
value closing over pair 0's `cancel` cannot be handed to `subscribe`, and
the listener under observation (id `i`) is only ever subscribed to the
empty token itself. -/

/-- Whether a listener value closes over pair 0's `cancel`. -/
def targetsZero : Listener → Bool
  | .cbCancel _ t _ => decide (t = 0)
  | .childCancel t => decide (t = 0)
  | _ => false

/-- One operation of the public surface (`isCanceled`/`throwIfCanceled` are
pure and change nothing). -/
inductive Op where
  | createOp (parents : List Nat)
  | cancelOp (p : Nat) (r : JSVal)
  | subscribeOp (p : Nat) (l : Listener)
  | unsubscribeOp (s : Subscription)
deriving DecidableEq

def applyOp (w : World) : Op → World
  | .createOp parents => (createCancelSource parents w).1
  | .cancelOp p r => cancel p r w
  | .subscribeOp p l => (subscribe p l w).1
  | .unsubscribeOp s => unsubscribe s w

def runOps (w : World) (ops : List Op) : World := ops.foldl applyOp w

/-- Admissible public operations, for a distinguished listener id `i` that
is only ever subscribed to the empty token. -/
def opOK (i : Nat) : Op → Bool
  | .cancelOp p _ => decide (p ≠ 0)
  | .subscribeOp p l => !(targetsZero l) && (!(listenerIdIs i l) || decide (p = 0))
  | _ => true

/-- The invariant behind C8: pair 0 is alive and pristine, no stored
listener outside pair 0 closes over pair 0's `cancel` or carries id `i`,
and id `i` has never been invoked. -/
def EmptyTokenInv (i : Nat) (w : World) : Prop :=
  0 < w.pairs.length ∧
  (getPair w 0).reason = JSVal.null ∧
  (getPair w 0).onceFired = false ∧
  (∀ p, p ≠ 0 → ∀ l ∈ (getPair w p).listeners,
      targetsZero l = false ∧ listenerIdIs i l = false) ∧
  (∀ e ∈ w.log, e.1 ≠ i)

theorem getPair_congr {w w2 : World} (hp : w2.pairs = w.pairs) (q : Nat) :
    getPair w2 q = getPair w q := by
  show w2.pairs.getD q dummyPair = w.pairs.getD q dummyPair
  rw [hp]

/-- The invariant only watches `pairs` and `log`. -/
theorem emptyTokenInv_of_parts (i : Nat) (w w2 : World) (hp : w2.pairs = w.pairs)
    (hl : ∀ e ∈ w2.log, e ∈ w.log ∨ e.1 ≠ i) :
    EmptyTokenInv i w → EmptyTokenInv i w2 := by
  intro hw
  obtain ⟨h1, h2, h3, h4, h5⟩ := hw
  refine ⟨?_, ?_, ?_, ?_, ?_⟩
  · rw [show w2.pairs.length = w.pairs.length from by rw [hp]]
    exact h1
  · rw [getPair_congr hp]
    exact h2
  · rw [getPair_congr hp]
    exact h3
  · intro p hp0 l hlmem
    rw [getPair_congr hp] at hlmem
    exact h4 p hp0 l hlmem
  · intro e he
    rcases hl e he with h | h
    · exact h5 e h
    · exact h

theorem emptyTokenInv_invoke (i : Nat) (canc : Nat → JSVal → World → World)
    (hc : ∀ p r w, p ≠ 0 → EmptyTokenInv i w → EmptyTokenInv i (canc p r w))
    (r : JSVal) (l : Listener) (w : World)
    (ht0 : targetsZero l = false) (hid : listenerIdIs i l = false)
    (hw : EmptyTokenInv i w) : EmptyTokenInv i (invokeListener canc r l w) := by
  cases l with
  | cb id t =>
      have hne : id ≠ i := by simpa [listenerIdIs] using hid
      cases t with
      | none =>
          refine emptyTokenInv_of_parts i w _ rfl ?_ hw
          intro e he
          rcases List.mem_append.1 he with h | h
          · exact Or.inl h
          · simp only [List.mem_singleton] at h
            subst h
            exact Or.inr hne
      | some e0 =>
          refine emptyTokenInv_of_parts i w _ rfl ?_ hw
          intro e he
          rcases List.mem_append.1 he with h | h
          · exact Or.inl h
          · simp only [List.mem_singleton] at h
            subst h
            exact Or.inr hne
  | cbCancel id tgt a =>
      have hne : id ≠ i := by simpa [listenerIdIs] using hid
      have htgt : tgt ≠ 0 := by simpa [targetsZero] using ht0
      apply hc tgt a _ htgt
      refine emptyTokenInv_of_parts i w _ rfl ?_ hw
      intro e he
      rcases List.mem_append.1 he with h | h
      · exact Or.inl h
      · simp only [List.mem_singleton] at h
        subst h
        exact Or.inr hne
  | childCancel tgt =>
      have htgt : tgt ≠ 0 := by simpa [targetsZero] using ht0
      exact hc tgt r w htgt hw
  | nonCallable id =>
      exact emptyTokenInv_of_parts i w _ rfl (fun e he => Or.inl he) hw

theorem emptyTokenInv_forEach (i : Nat) (canc : Nat → JSVal → World → World)
    (hc : ∀ p r w, p ≠ 0 → EmptyTokenInv i w → EmptyTokenInv i (canc p r w)) :
    ∀ (ls : List Listener) (r : JSVal) (w : World),
    (∀ l ∈ ls, targetsZero l = false ∧ listenerIdIs i l = false) →
    EmptyTokenInv i w → EmptyTokenInv i (forEachListener canc ls r w) := by
  intro ls
  induction ls with
  | nil => exact fun r w _ hw => hw
  | cons l ls ih =>
      intro r w h hw
      have hl := h l (by simp)
      have hls : ∀ x ∈ ls, targetsZero x = false ∧ listenerIdIs i x = false :=
        fun x hx => h x (by simp [hx])
      exact ih r _ hls (emptyTokenInv_invoke i canc hc r l w hl.1 hl.2 hw)

theorem emptyTokenInv_cancelFn (i : Nat) : ∀ (fuel p : Nat) (r : JSVal) (w : World),
    p ≠ 0 → EmptyTokenInv i w → EmptyTokenInv i (cancelFn fuel p r w) := by
  intro fuel
  induction fuel with
  | zero => exact fun p r w _ hw => hw
  | succ f ih =>
      intro p r w hp0 hw
      by_cases hf : (getPair w p).onceFired = true
      · rw [cancelFn_fired hf]
        exact hw
      · rw [Bool.not_eq_true] at hf
        rw [cancelFn_productive hf]
        have hplt := lt_of_not_fired hf
        have hW1 : EmptyTokenInv i (setPair w p
            { getPair w p with reason := commitReason r, onceFired := true }) := by
          obtain ⟨h1, h2, h3, h4, h5⟩ := hw
          refine ⟨?_, ?_, ?_, ?_, h5⟩
          · rw [pairsLength_setPair]
            exact h1
          · rw [getPair_setPair_ne _ _ hp0]
            exact h2
          · rw [getPair_setPair_ne _ _ hp0]
            exact h3
          · intro q hq0 lx hlx
            by_cases hpq : p = q
            · subst hpq
              rw [getPair_setPair_self _ _ _ hplt] at hlx
              exact h4 p hq0 lx hlx
            · rw [getPair_setPair_ne _ _ hpq] at hlx
              exact h4 q hq0 lx hlx
        exact emptyTokenInv_forEach i (cancelFn f) (fun p2 r2 w2 => ih p2 r2 w2)
          (getPair w p).listeners (commitReason r) _ (hw.2.2.2.1 p hp0) hW1

theorem emptyTokenInv_subscribe (i : Nat) (p : Nat) (l : Listener)
    (ht0 : targetsZero l = false) (hid : listenerIdIs i l = false ∨ p = 0)
    (w : World) (hw : EmptyTokenInv i w) : EmptyTokenInv i (subscribe p l w).1 := by
  by_cases hcond : truthy (getPair w p).reason = true
  · have hp0 : p ≠ 0 := by
      intro he
      subst he
      rw [hw.2.1] at hcond
      exact absurd hcond (by decide)
    have hid2 : listenerIdIs i l = false := by
      rcases hid with h | h
      · exact h
      · exact absurd h hp0
    rw [show (subscribe p l w).1
        = invokeListener (cancelFn w.pairs.length) (getPair w p).reason l w from
      by rw [subscribe_on_canceled _ _ _ hcond]]
    exact emptyTokenInv_invoke i _ (fun p2 r2 w2 => emptyTokenInv_cancelFn i _ p2 r2 w2)
      _ l w ht0 hid2 hw
  · rw [Bool.not_eq_true] at hcond
    rw [show (subscribe p l w).1
        = setPair w p { getPair w p with listeners := (getPair w p).listeners ++ [l] } from
      by rw [subscribe_on_live _ _ _ hcond]]
    by_cases hplen : p < w.pairs.length
    · obtain ⟨h1, h2, h3, h4, h5⟩ := hw
      refine ⟨by rw [pairsLength_setPair]; exact h1, ?_, ?_, ?_, h5⟩
      · by_cases hp0 : p = 0
        · subst hp0
          rw [getPair_setPair_self _ _ _ hplen]
          exact h2
        · rw [getPair_setPair_ne _ _ hp0]
          exact h2
      · by_cases hp0 : p = 0
        · subst hp0
          rw [getPair_setPair_self _ _ _ hplen]
          exact h3
        · rw [getPair_setPair_ne _ _ hp0]
          exact h3
      · intro q hq0 lx hlx
        by_cases hpq : p = q
        · subst hpq
          rw [getPair_setPair_self _ _ _ hplen] at hlx
          have hlx2 : lx ∈ (getPair w p).listeners ++ [l] := hlx
          rcases List.mem_append.1 hlx2 with ha | hb
          · exact h4 p hq0 lx ha
          · simp only [List.mem_singleton] at hb
            subst hb
            refine ⟨ht0, ?_⟩
            rcases hid with h | h
            · exact h
            · exact absurd h hq0
        · rw [getPair_setPair_ne _ _ hpq] at hlx
          exact h4 q hq0 lx hlx
    · rw [setPair_oor (by omega)]
      exact hw

theorem emptyTokenInv_applyOp (i : Nat) (w : World) (op : Op) (hok : opOK i op = true)
    (hw : EmptyTokenInv i w) : EmptyTokenInv i (applyOp w op) := by
  cases op with
  | cancelOp p r =>
      have hp0 : p ≠ 0 := by simpa [opOK] using hok
      exact emptyTokenInv_cancelFn i _ p r w hp0 hw
  | subscribeOp p l =>
      have hok2 : targetsZero l = false ∧ (listenerIdIs i l = false ∨ p = 0) := by
        simp only [opOK, Bool.and_eq_true, Bool.or_eq_true, Bool.not_eq_true',
          decide_eq_true_eq] at hok
        exact hok
      exact emptyTokenInv_subscribe i p l hok2.1 hok2.2 w hw
  | unsubscribeOp s =>
      cases s with
      | empty => exact hw
      | active p l =>
          show EmptyTokenInv i (setPair w p { getPair w p with
            listeners := (getPair w p).listeners.filter (fun el => decide (el ≠ l)) })
          by_cases hplen : p < w.pairs.length
          · obtain ⟨h1, h2, h3, h4, h5⟩ := hw
            refine ⟨by rw [pairsLength_setPair]; exact h1, ?_, ?_, ?_, h5⟩
            · by_cases hp0 : p = 0
              · subst hp0
                rw [getPair_setPair_self _ _ _ hplen]
                exact h2
              · rw [getPair_setPair_ne _ _ hp0]
                exact h2
            · by_cases hp0 : p = 0
              · subst hp0
                rw [getPair_setPair_self _ _ _ hplen]
                exact h3
              · rw [getPair_setPair_ne _ _ hp0]
                exact h3
            · intro q hq0 lx hlx
              by_cases hpq : p = q
              · subst hpq
                rw [getPair_setPair_self _ _ _ hplen] at hlx
                have hlx2 : lx ∈ (getPair w p).listeners.filter (fun el => decide (el ≠ l)) :=
                  hlx
                exact h4 p hq0 lx (List.mem_filter.1 hlx2).1
              · rw [getPair_setPair_ne _ _ hpq] at hlx
                exact h4 q hq0 lx hlx
          · rw [setPair_oor (by omega)]
            exact hw
  | createOp parents =>
      have hc0 : 0 < w.pairs.length := hw.1
      have hW1 : EmptyTokenInv i { w with pairs := w.pairs
          ++ [({ reason := JSVal.null, listeners := [], onceFired := false }
            : CancelData)] } := by
        obtain ⟨h1, h2, h3, h4, h5⟩ := hw
        refine ⟨?_, ?_, ?_, ?_, h5⟩
        · show 0 < (w.pairs ++ [_]).length
          rw [List.length_append]
          omega
        · rw [getPair_appendPair _ _ h1]
          exact h2
        · rw [getPair_appendPair _ _ h1]
          exact h3
        · intro q hq0 lx hlx
          by_cases hql : q < w.pairs.length
          · rw [getPair_appendPair _ _ hql] at hlx
            exact h4 q hq0 lx hlx
          · by_cases hqe : q = w.pairs.length
            · subst hqe
              rw [getPair_appendPair_self] at hlx
              simp at hlx
            · rw [getPair, List.getD_eq_default] at hlx
              · simp [dummyPair] at hlx
              · show (w.pairs
                  ++ [({ reason := JSVal.null, listeners := [], onceFired := false }
                    : CancelData)]).length ≤ q
                rw [List.length_append]
                simp only [List.length_singleton]
                omega
      have hfold : ∀ (ts : List Nat) (acc : World), EmptyTokenInv i acc →
          EmptyTokenInv i (ts.foldl
            (fun a t => (subscribe t (Listener.childCancel w.pairs.length) a).1) acc) := by
        intro ts
        induction ts with
        | nil => exact fun acc h => h
        | cons t ts ih =>
            intro acc h
            refine ih _ (emptyTokenInv_subscribe i t (Listener.childCancel w.pairs.length)
              ?_ (Or.inl rfl) acc h)
            have hne : w.pairs.length ≠ 0 := by omega
            simp [targetsZero, hne]
      exact hfold parents _ hW1

theorem emptyTokenInv_runOps (i : Nat) : ∀ (ops : List Op) (w : World),
    ops.all (opOK i) = true → EmptyTokenInv i w → EmptyTokenInv i (runOps w ops) := by
  intro ops
  induction ops with
  | nil => exact fun w _ hw => hw
  | cons op ops ih =>
      intro w hall hw
      rw [List.all_cons, Bool.and_eq_true] at hall
      exact ih _ hall.2 (emptyTokenInv_applyOp i w op hall.1 hw)

theorem emptyTokenInv_module (i : Nat) : EmptyTokenInv i moduleWorld := by
  refine ⟨by decide, by decide, by decide, ?_, ?_⟩
  · intro p hp0 l hl
    have hlen : moduleWorld.pairs.length = 1 := rfl
    rw [getPair, List.getD_eq_default] at hl
    · simp [dummyPair] at hl
    · rw [hlen]
      omega
  · intro e he
    simp [show moduleWorld.log = [] from rfl] at he

/-- C8: through any admissible sequence of public operations, the empty
token's reason stays absent — `isCanceled()` is false, `throwIfCanceled()`
returns normally — and a listener subscribed only to the empty token is
never invoked (pair 0's `cancel` exists internally but is never surfaced,
and nothing else can fire it). -/
theorem c8_empty_token_never_cancels (i : Nat) (ops : List Op)
    (hok : ops.all (opOK i) = true) :
    (getPair (runOps moduleWorld ops) emptyToken).reason = JSVal.null ∧
    isCanceled (runOps moduleWorld ops) emptyToken = false ∧
    throwIfCanceled (runOps moduleWorld ops) emptyToken = none ∧
    (∀ e ∈ (runOps moduleWorld ops).log, e.1 ≠ i) := by
  have hinv := emptyTokenInv_runOps i ops moduleWorld hok (emptyTokenInv_module i)
  have hreason : (getPair (runOps moduleWorld ops) emptyToken).reason = JSVal.null :=
    hinv.2.1
  refine ⟨hreason, ?_, ?_, hinv.2.2.2.2⟩
  · show truthy (getPair (runOps moduleWorld ops) emptyToken).reason = false
    rw [hreason]
    rfl
  · show throwIfCanceled (runOps moduleWorld ops) emptyToken = none
    rw [throwIfCanceled, hreason]
    rfl

/-- Witness for C8: a run that creates a child of the empty token, cancels
it, subscribes listener 5 to the empty token and others elsewhere, and
unsubscribes — the empty token never cancels and listener 5 never runs. -/
theorem c8_witness :
    ([Op.createOp [0], Op.subscribeOp 0 (Listener.cb 5 none),
        Op.subscribeOp 1 (Listener.cb 6 none), Op.cancelOp 1 (JSVal.err "x"),
        Op.unsubscribeOp (Subscription.active 0 (Listener.cb 5 none))].all (opOK 5)
      = true) ∧
    ((getPair (runOps moduleWorld [Op.createOp [0], Op.subscribeOp 0 (Listener.cb 5 none),
        Op.subscribeOp 1 (Listener.cb 6 none), Op.cancelOp 1 (JSVal.err "x"),
        Op.unsubscribeOp (Subscription.active 0 (Listener.cb 5 none))]) emptyToken).reason
        = JSVal.null ∧
      isCanceled (runOps moduleWorld [Op.createOp [0], Op.subscribeOp 0 (Listener.cb 5 none),
        Op.subscribeOp 1 (Listener.cb 6 none), Op.cancelOp 1 (JSVal.err "x"),
        Op.unsubscribeOp (Subscription.active 0 (Listener.cb 5 none))]) emptyToken = false ∧
      throwIfCanceled (runOps moduleWorld [Op.createOp [0], Op.subscribeOp 0 (Listener.cb 5 none),
        Op.subscribeOp 1 (Listener.cb 6 none), Op.cancelOp 1 (JSVal.err "x"),
        Op.unsubscribeOp (Subscription.active 0 (Listener.cb 5 none))]) emptyToken = none ∧
      (∀ e ∈ (runOps moduleWorld [Op.createOp [0], Op.subscribeOp 0 (Listener.cb 5 none),
        Op.subscribeOp 1 (Listener.cb 6 none), Op.cancelOp 1 (JSVal.err "x"),
        Op.unsubscribeOp (Subscription.active 0 (Listener.cb 5 none))]).log, e.1 ≠ 5)) :=
  ⟨by decide,
    c8_empty_token_never_cancels 5 [Op.createOp [0], Op.subscribeOp 0 (Listener.cb 5 none),
      Op.subscribeOp 1 (Listener.cb 6 none), Op.cancelOp 1 (JSVal.err "x"),
      Op.unsubscribeOp (Subscription.active 0 (Listener.cb 5 none))] (by decide)⟩
